import Mathlib

/-!
# Verification of `url-query-cleaner` (src/lib.rs)

The crate exposes two functions:

* `clean(url, filters)` — parses `url` with `url::Url::parse`, keeps the
  query pairs whose (percent-decoded) name does not start with any string in
  `filters`, rejoins them with `&`, stores the result via `Url::set_query`
  (`None` when the joined string is empty) and returns `Url::to_string`.
* `untrack(url, opts)` — builds a fixed filter list from the boolean flags
  of `AllowedTracking` and calls `clean`.

The URL parser/serializer is an external collaborator (the `url` crate; it
is not part of this repository sources).  We model it as follows:

* a parsed URL is a structure of its serialized components
  (scheme, host, path, optional raw query, optional fragment);
* `Url::parse` is an abstract parameter `parse : String → Except ParseError Url`
  — the claims quantify over URL strings that parse successfully, which we
  render by quantifying over the parse function and/or the parsed structure;
* `Url::query_pairs` (the `form_urlencoded` parser) and `Url::set_query`
  are modelled concretely at the character level, faithful to the documented
  behaviour of the crate on ASCII input: split the raw query on `&`, skip
  empty pieces, split each piece at the first `=`, decode `+` as space and
  `%XX` hex escapes in both name and value; `set_query(Some(s))` stores `s`
  with the special-scheme query percent-encode set applied
  (C0 controls, space, double quote, hash, less-than, greater-than, apostrophe 0x27, DEL and higher) and
  `to_string` emits `scheme "://" host path ["?" query] ["#" fragment]`.
  (The crate operates on UTF-8 bytes; on ASCII strings — which all claims
  and repository tests use — the byte-level and character-level views
  coincide.)
-/

/-- Model of `url::ParseError`.  `clean` never constructs or inspects a
parse error — it only propagates the value produced by the parser — so the claims need
only an inhabited type with decidable equality; we list a few of the
actual variants of the crate. -/
inductive ParseError where
  | emptyHost : ParseError
  | invalidIpv6Address : ParseError
  | invalidPort : ParseError
  | relativeUrlWithoutBase : ParseError
  | idnaError : ParseError
deriving DecidableEq

/-- Model of a parsed `url::Url`: the serialized components.  `query` and
`fragment` are `none` when the URL has no `?`/`#` part; when present they
hold the raw (still percent-encoded) text after the separator. -/
structure Url where
  scheme : String
  host : String
  path : String
  query : Option String
  fragment : Option String
deriving DecidableEq

/-- Serialization (`url::Url::to_string`): the stored components joined
with their separators; no `?` is emitted when `query = none` and no `#`
when `fragment = none`. -/
def Url.toString (u : Url) : String :=
  u.scheme ++ "://" ++ u.host ++ u.path
    ++ (match u.query with | none => "" | some q => "?" ++ q)
    ++ (match u.fragment with | none => "" | some f => "#" ++ f)

/-- Value of an ASCII hex digit (`form_urlencoded` accepts both cases). -/
def hexDigitVal (c : Char) : Option Nat :=
  if 48 ≤ c.toNat ∧ c.toNat ≤ 57 then some (c.toNat - 48)
  else if 65 ≤ c.toNat ∧ c.toNat ≤ 70 then some (c.toNat - 55)
  else if 97 ≤ c.toNat ∧ c.toNat ≤ 102 then some (c.toNat - 87)
  else none

/-- Percent-decoding as `form_urlencoded` performs it on names and values:
`+` becomes a space, `%XY` with two hex digits becomes the byte `16*X+Y`,
anything else (including a `%` not followed by two hex digits) is kept
literally. -/
def formDecode : List Char → List Char
  | [] => []
  | '%' :: c1 :: c2 :: rest =>
    match hexDigitVal c1, hexDigitVal c2 with
    | some h1, some h2 => Char.ofNat (16 * h1 + h2) :: formDecode rest
    | _, _ => '%' :: formDecode (c1 :: c2 :: rest)
  | c :: rest => if c = '+' then ' ' :: formDecode rest else c :: formDecode rest

/-- Split one `&`-separated piece at its first `=` (the splitn-2-at-the-first-equals step of `form_urlencoded`); a piece with no `=` yields an empty value. -/
def splitEq : List Char → List Char × List Char
  | [] => ([], [])
  | c :: cs =>
    if c = '=' then ([], cs)
    else
      let p := splitEq cs
      (c :: p.1, p.2)

/-- Decode one raw `&`-piece into a (name, value) pair: split at the first
`=`, then percent-decode name and value separately. -/
def decodePiece (piece : List Char) : String × String :=
  let p := splitEq piece
  (⟨formDecode p.1⟩, ⟨formDecode p.2⟩)

/-- Split a character list on `&` (the Rust `str::split` semantics: `n`
separators yield `n+1` pieces, so an empty input yields one empty piece). -/
def splitAmp : List Char → List (List Char)
  | [] => [[]]
  | c :: rest =>
    match splitAmp rest with
    | [] => []
    | piece :: pieces =>
      if c = '&' then [] :: piece :: pieces else (c :: piece) :: pieces

/-- `form_urlencoded::parse` on a raw query string: split on `&`, skip
empty pieces, decode each remaining piece. -/
def parseQueryPairs (q : String) : List (String × String) :=
  ((splitAmp q.data).filter (fun s => !(s = []))).map decodePiece

/-- `url::Url::query_pairs`: the decoded (name, value) pairs of the raw query of the URL, in order; empty when the URL has no query. -/
def Url.queryPairs (u : Url) : List (String × String) :=
  match u.query with
  | none => []
  | some q => parseQueryPairs q

/-- Membership in the query percent-encode set `set_query` uses for the
special scheme `https`: C0 controls, space, `"`, `#`, `<`, `>`, the
apostrophe (0x27), DEL and above. -/
def inSpecialQuerySet (c : Char) : Bool :=
  c.toNat ≤ 0x1f || c = ' ' || c = '"' || c = '#' || c = '<' || c = '>'
    || c.toNat = 0x27 || 0x7f ≤ c.toNat

/-- Uppercase hex digit of `n < 16`. -/
def hexDigitChar (n : Nat) : Char :=
  if n < 10 then Char.ofNat (48 + n) else Char.ofNat (55 + n)

/-- `%XX` escape of one character. -/
def pctEncodeChar (c : Char) : List Char :=
  ['%', hexDigitChar (c.toNat / 16 % 16), hexDigitChar (c.toNat % 16)]

/-- The percent-encoding `set_query` applies to the string it stores. -/
def encodeQuery (s : String) : String :=
  ⟨(s.data.map (fun c => if inSpecialQuerySet c then pctEncodeChar c else [c])).flatten⟩

/-- `url::Url::set_query`: `none` removes the query component; `some s`
stores `s` with the query percent-encode set applied.  No other component
is touched. -/
def Url.setQuery (u : Url) (q : Option String) : Url :=
  match q with
  | none => { u with query := none }
  | some s => { u with query := some (encodeQuery s) }

/-- The Rust string method `starts_with` on strings: byte-level (here: character-level)
prefix test. -/
def strStartsWith (s pre : String) : Bool :=
  pre.data.isPrefixOf s.data

/-- `Vec::join("&")`. -/
def joinAmp : List String → String
  | [] => ""
  | [x] => x
  | x :: y :: rest => x ++ "&" ++ joinAmp (y :: rest)

/-- The query pairs `clean` retains: those whose decoded name does not
start with any of the filters (the `.filter` step of `clean`). -/
def retainedPairs (uri : Url) (filters : List String) : List (String × String) :=
  uri.queryPairs.filter (fun p => !(filters.any (fun f => strStartsWith p.1 f)))

/-- The whole of `clean` after the parse: filter the decoded query pairs,
format each as `name=value`, join with `&`, and set the query to the
result (`None` when it is empty). -/
def cleanUrl (uri : Url) (filters : List String) : Url :=
  let query :=
    joinAmp ((retainedPairs uri filters).map (fun p => p.1 ++ "=" ++ p.2))
  if query = "" then uri.setQuery none
  else uri.setQuery (some query)

/-- `clean` from src/lib.rs, with the external `Url::parse` abstracted as
the parameter `parse`: parse the URL (propagating the error of the parser with
`?`), clean it, serialize. -/
def clean (parse : String → Except ParseError Url) (url : String)
    (filters : List String) : Except ParseError String :=
  match parse url with
  | .error e => .error e
  | .ok uri => .ok (Url.toString (cleanUrl uri filters))

/-- `AllowedMarketingTracking` from src/lib.rs: one flag per recognized
marketing-tracking family; `true` means the tracker is allowed (kept). -/
structure AllowedMarketingTracking where
  utm : Bool
  gclid : Bool
  gclsrc : Bool
  dclid : Bool
  fbclid : Bool
  mscklid : Bool
  zanpid : Bool
deriving DecidableEq

/-- `Default` for `AllowedMarketingTracking`: every flag `false`. -/
def AllowedMarketingTracking.default : AllowedMarketingTracking :=
  ⟨false, false, false, false, false, false, false⟩

/-- `AllowedTracking` from src/lib.rs. -/
structure AllowedTracking where
  marketing : AllowedMarketingTracking
deriving DecidableEq

/-- `Default` for `AllowedTracking`. -/
def AllowedTracking.default : AllowedTracking :=
  ⟨AllowedMarketingTracking.default⟩

/-- The filter list `untrack` pushes, in source order: one fixed prefix per
flag that is `false`. -/
def untrackFilters (opts : AllowedTracking) : List String :=
  (if !opts.marketing.utm then ["utm_"] else [])
    ++ (if !opts.marketing.gclid then ["gclid"] else [])
    ++ (if !opts.marketing.gclsrc then ["gclsrc"] else [])
    ++ (if !opts.marketing.dclid then ["dclid"] else [])
    ++ (if !opts.marketing.fbclid then ["fbclid"] else [])
    ++ (if !opts.marketing.mscklid then ["mscklid"] else [])
    ++ (if !opts.marketing.zanpid then ["zanpid"] else [])

/-- `untrack` from src/lib.rs: build the filter list from the policy and
delegate to `clean`. -/
def untrack (parse : String → Except ParseError Url) (url : String)
    (opts : AllowedTracking) : Except ParseError String :=
  clean parse url (untrackFilters opts)

/-- A parse function for concrete instances: success on one fixed string,
failure elsewhere. -/
def parseTable (s0 : String) (u0 : Url) : String → Except ParseError Url :=
  fun s => if s = s0 then .ok u0 else .error ParseError.relativeUrlWithoutBase

/-- The TrackingPolicy-to-FilterSet mapping written from the words of the
spec (section 4.2 and the Glossary table), to be compared with the filter
list `untrack` builds: for each flag that is false, append its fixed
prefix, in Glossary order. -/
def specToFilterSet (opts : AllowedTracking) : List String :=
  ([(opts.marketing.utm, "utm_"), (opts.marketing.gclid, "gclid"),
    (opts.marketing.gclsrc, "gclsrc"), (opts.marketing.dclid, "dclid"),
    (opts.marketing.fbclid, "fbclid"), (opts.marketing.mscklid, "mscklid"),
    (opts.marketing.zanpid, "zanpid")]).filterMap
    (fun p => if p.1 then none else some p.2)

/-! ## Helper lemmas -/

/-- The Rust prefix test agrees with the propositional statement
`s = pre ++ t` for some tail `t`. -/
theorem strStartsWith_iff (s pre : String) :
    strStartsWith s pre = true ↔ ∃ t, s = pre ++ t := by
  unfold strStartsWith
  rw [ List.isPrefixOf_iff_prefix]
  constructor
  · rintro ⟨l, hl⟩
    refine ⟨⟨l⟩, String.ext ?_⟩
    rw [String.data_append]
    exact hl.symm
  · rintro ⟨t, rfl⟩
    exact ⟨t.data, (String.data_append pre t).symm⟩

/-- Membership in the retained pairs, spelled out. -/
theorem mem_retainedPairs {u : Url} {fs : List String} {p : String × String} :
    p ∈ retainedPairs u fs ↔
      p ∈ u.queryPairs ∧ ∀ f ∈ fs, ¬ ∃ t, p.1 = f ++ t := by
  unfold retainedPairs
  rw [List.mem_filter]
  refine and_congr_right fun _ => ?_
  rw [Bool.not_eq_true', List.any_eq_false]
  constructor
  · intro h f hf hex
    exact h f hf ((strStartsWith_iff p.1 f).mpr hex)
  · intro h f hf ht
    exact h f hf ((strStartsWith_iff p.1 f).mp ht)

/-- A formatted pair `name=value` is never the empty string. -/
theorem fmtPair_ne_empty (a b : String) : a ++ "=" ++ b ≠ "" := by
  intro h
  have hdata : (a ++ "=" ++ b).data = [] := by rw [h]
  rw [String.data_append, String.data_append] at hdata
  rcases List.append_eq_nil.mp hdata with ⟨h1, _⟩
  rcases List.append_eq_nil.mp h1 with ⟨_, h4⟩
  exact List.cons_ne_nil _ _ h4

/-- Joining with `&` gives the empty string only for the empty list,
provided no element is empty. -/
theorem joinAmp_eq_empty_iff (L : List String) (h : ∀ x ∈ L, x ≠ "") :
    joinAmp L = "" ↔ L = [] := by
  cases L with
  | nil => simp [joinAmp]
  | cons x t =>
    cases t with
    | nil =>
      have hx := h x (by simp)
      simp only [joinAmp]
      simp [hx]
    | cons y t2 =>
      have hd : x ++ "&" ++ joinAmp (y :: t2) ≠ "" := by
        intro hc
        have hdata : (x ++ "&" ++ joinAmp (y :: t2)).data = [] := by rw [hc]
        rw [String.data_append, String.data_append] at hdata
        rcases List.append_eq_nil.mp hdata with ⟨h1, _⟩
        rcases List.append_eq_nil.mp h1 with ⟨_, h4⟩
        exact List.cons_ne_nil _ _ h4
      simp only [joinAmp]
      simp [hd]

/-- Master shape lemma for `cleanUrl`: it only rewrites the query
component, to `none` when nothing is retained and to the encoded joined
string otherwise. -/
theorem cleanUrl_eq (u : Url) (fs : List String) :
    cleanUrl u fs =
      { u with query :=
          if retainedPairs u fs = [] then none
          else some (encodeQuery
            (joinAmp ((retainedPairs u fs).map (fun p => p.1 ++ "=" ++ p.2)))) } := by
  have hne : ∀ x ∈ (retainedPairs u fs).map (fun p => p.1 ++ "=" ++ p.2), x ≠ "" := by
    intro x hx
    obtain ⟨p, _, rfl⟩ := List.mem_map.mp hx
    exact fmtPair_ne_empty p.1 p.2
  unfold cleanUrl Url.setQuery
  by_cases h : retainedPairs u fs = []
  · simp [h, joinAmp]
  · have hmap : (retainedPairs u fs).map (fun p => p.1 ++ "=" ++ p.2) ≠ [] := by
      simpa using h
    have hj : joinAmp ((retainedPairs u fs).map (fun p => p.1 ++ "=" ++ p.2)) ≠ "" :=
      fun hc => hmap ((joinAmp_eq_empty_iff _ hne).mp hc)
    simp [h, hj]

/-! ## Claims -/

/-- C1: for every parsed URL and filter list, `clean` retains a query
parameter iff its name does not start with any string in the filter list;
matching is prefix matching, not exact-name or substring-anywhere matching:
on the query `a&ab=1&abc=2` the filter `ab` removes the parameters named
`ab` and `abc` but keeps `a`. -/
theorem clean_retains_iff_no_filter_matches (u : Url) (fs : List String)
    (p : String × String) :
    (p ∈ retainedPairs u fs ↔
      p ∈ u.queryPairs ∧ ∀ f ∈ fs, ¬ ∃ t, p.1 = f ++ t)
    ∧ retainedPairs ⟨"https", "e.com", "/", some "a&ab=1&abc=2", none⟩ ["ab"]
        = [("a", "")] :=
  ⟨mem_retainedPairs, by decide⟩

/-- C2: `clean` fails exactly when the parse fails, the error it returns
is the error value of the parser unchanged, and on every successfully
parsed URL it returns a value (the serialization of the cleaned URL) for
every filter list. -/
theorem clean_error_iff_parse_error (parse : String → Except ParseError Url)
    (url : String) (fs : List String) :
    (∀ e, clean parse url fs = Except.error e ↔ parse url = Except.error e)
    ∧ (∀ u, parse url = Except.ok u →
        clean parse url fs = Except.ok (Url.toString (cleanUrl u fs))) := by
  cases h : parse url with
  | error e => simp [clean, h]
  | ok u => simp [clean, h]

/-- Witness for C2 at a concrete parse function, URL and filter list, in
both the failing and the succeeding case. -/
theorem clean_error_iff_parse_error_witness :
    clean (parseTable "https://a/" ⟨"https", "a", "/", none, none⟩) "http://[:::1]/" []
        = Except.error ParseError.relativeUrlWithoutBase
    ∧ clean (parseTable "https://a/" ⟨"https", "a", "/", none, none⟩) "https://a/" []
        = Except.ok "https://a/" := by
  constructor
  · exact ((clean_error_iff_parse_error
      (parseTable "https://a/" ⟨"https", "a", "/", none, none⟩)
      "http://[:::1]/" []).1 ParseError.relativeUrlWithoutBase).mpr rfl
  · have h := (clean_error_iff_parse_error
      (parseTable "https://a/" ⟨"https", "a", "/", none, none⟩)
      "https://a/" []).2 ⟨"https", "a", "/", none, none⟩ rfl
    rw [h]
    rfl

/-- C7: filtering is antitone in the filter set — if every filter of `F1`
is a filter of `F2`, every pair retained under `F2` is retained under
`F1`. -/
theorem clean_monotone_filters (u : Url) (F1 F2 : List String)
    (hsub : F1 ⊆ F2) (p : String × String)
    (hp : p ∈ retainedPairs u F2) : p ∈ retainedPairs u F1 := by
  rcases mem_retainedPairs.mp hp with ⟨hmem, hall⟩
  exact mem_retainedPairs.mpr ⟨hmem, fun f hf => hall f (hsub hf)⟩

/-- Witness for C7: a concrete URL, a subset pair of filter lists and a
retained pair. -/
theorem clean_monotone_filters_witness :
    ("c", "1") ∈ retainedPairs ⟨"https", "e.com", "/", some "c=1&ab=2", none⟩ ["x"] :=
  clean_monotone_filters ⟨"https", "e.com", "/", some "c=1&ab=2", none⟩
    ["x"] ["x", "y"] (by intro a ha; simp at ha; simp [ha]) ("c", "1") (by decide)

/-- C8: `clean` never alters the scheme, host (authority), path or
fragment component — only the query component of the URL changes. -/
theorem clean_preserves_components (u : Url) (fs : List String) :
    (cleanUrl u fs).scheme = u.scheme ∧ (cleanUrl u fs).host = u.host
    ∧ (cleanUrl u fs).path = u.path ∧ (cleanUrl u fs).fragment = u.fragment := by
  rw [cleanUrl_eq]
  exact ⟨rfl, rfl, rfl, rfl⟩

/-- C9: when the filter list contains the empty string every parameter is
removed (every name starts with the empty string), so the cleaned URL has
no query component at all. -/
theorem clean_empty_string_filter_removes_all (u : Url) (fs : List String)
    (h : "" ∈ fs) :
    retainedPairs u fs = [] ∧ (cleanUrl u fs).query = none := by
  have hany : ∀ p : String × String, fs.any (fun f => strStartsWith p.1 f) = true := by
    intro p
    refine List.any_eq_true.mpr ⟨"", h, ?_⟩
    rw [strStartsWith_iff]
    exact ⟨p.1, by rw [String.ext_iff, String.data_append]; rfl⟩
  have hret : retainedPairs u fs = [] := by
    unfold retainedPairs
    rw [List.filter_eq_nil_iff]
    intro p _
    simp [hany p]
  refine ⟨hret, ?_⟩
  rw [cleanUrl_eq]
  simp [hret]

/-- Witness for C9: a filter list containing the empty string wipes the
query of a concrete URL. -/
theorem clean_empty_string_filter_removes_all_witness :
    retainedPairs ⟨"https", "e.com", "/", some "a=1&b=2", none⟩ ["", "x"] = []
    ∧ (cleanUrl ⟨"https", "e.com", "/", some "a=1&b=2", none⟩ ["", "x"]).query = none :=
  clean_empty_string_filter_removes_all
    ⟨"https", "e.com", "/", some "a=1&b=2", none⟩ ["", "x"] (by decide)

/-- On a successful parse, `clean` returns the serialization of the
cleaned URL. -/
theorem clean_ok_of_parse_ok (parse : String → Except ParseError Url)
    (url : String) (fs : List String) (u : Url)
    (hp : parse url = Except.ok u) :
    clean parse url fs = Except.ok (Url.toString (cleanUrl u fs)) := by
  unfold clean
  rw [hp]

/-- Serialization of a URL without a query component: no `?` separator is
emitted. -/
theorem toString_query_none (u : Url) (h : u.query = none) :
    Url.toString u = u.scheme ++ "://" ++ u.host ++ u.path
      ++ (match u.fragment with | none => "" | some f => "#" ++ f) := by
  unfold Url.toString
  rw [h, String.append_empty]

/-- C3: `untrack` is `clean` applied to the filter list obtained from the
policy by the fixed spec mapping — the list the code builds equals the
list the spec mapping produces, it contains exactly the fixed prefix of
each flag that is false (utm ↦ utm_, gclid ↦ gclid, gclsrc ↦ gclsrc,
dclid ↦ dclid, fbclid ↦ fbclid, mscklid ↦ mscklid, zanpid ↦ zanpid), it
omits the prefix of each flag that is true, and `untrack` therefore has
the same error contract as `clean`. -/
theorem untrack_eq_clean_spec_filters (parse : String → Except ParseError Url)
    (url : String) (o : AllowedTracking) :
    untrackFilters o = specToFilterSet o
    ∧ untrack parse url o = clean parse url (specToFilterSet o)
    ∧ (∀ f, f ∈ untrackFilters o ↔
        ((o.marketing.utm = false ∧ f = "utm_")
        ∨ (o.marketing.gclid = false ∧ f = "gclid")
        ∨ (o.marketing.gclsrc = false ∧ f = "gclsrc")
        ∨ (o.marketing.dclid = false ∧ f = "dclid")
        ∨ (o.marketing.fbclid = false ∧ f = "fbclid")
        ∨ (o.marketing.mscklid = false ∧ f = "mscklid")
        ∨ (o.marketing.zanpid = false ∧ f = "zanpid"))) := by
  obtain ⟨⟨u, g, gs, d, fb, m, z⟩⟩ := o
  have heq : untrackFilters ⟨⟨u, g, gs, d, fb, m, z⟩⟩
      = specToFilterSet ⟨⟨u, g, gs, d, fb, m, z⟩⟩ := by
    cases u <;> cases g <;> cases gs <;> cases d <;> cases fb <;> cases m <;>
      cases z <;> rfl
  refine ⟨heq, by unfold untrack; rw [heq], ?_⟩
  intro f
  cases u <;> cases g <;> cases gs <;> cases d <;> cases fb <;> cases m <;>
    cases z <;> simp [untrackFilters]

/-- C5: the retained pairs are a sublist of the query pairs (original
order preserved), a pair with a duplicate name is kept or dropped by the
same name-prefix rule (stated through multiplicities), and when nonempty
the stored query component is the retained pairs formatted `name=value`
and joined with `&` in that order (values verbatim up to the reassembly
encoding of `set_query`). -/
theorem clean_preserves_order_values_duplicates (u : Url) (fs : List String) :
    List.Sublist (retainedPairs u fs) u.queryPairs
    ∧ (∀ p : String × String,
        ((∀ f ∈ fs, ¬ ∃ t, p.1 = f ++ t) →
          (retainedPairs u fs).count p = u.queryPairs.count p)
        ∧ ((∃ f ∈ fs, ∃ t, p.1 = f ++ t) →
          (retainedPairs u fs).count p = 0))
    ∧ (retainedPairs u fs ≠ [] →
        (cleanUrl u fs).query
          = some (encodeQuery
              (joinAmp ((retainedPairs u fs).map (fun p => p.1 ++ "=" ++ p.2))))) := by
  refine ⟨List.filter_sublist _, fun p => ⟨?_, ?_⟩, fun h => ?_⟩
  · intro hall
    have hpred : (!(fs.any (fun f => strStartsWith p.1 f))) = true := by
      rw [Bool.not_eq_true', List.any_eq_false]
      intro f hf hb
      exact hall f hf ((strStartsWith_iff p.1 f).mp hb)
    exact List.count_filter hpred
  · intro hex
    refine List.count_eq_zero.mpr (fun hmem => ?_)
    obtain ⟨f, hf, t, ht⟩ := hex
    exact (mem_retainedPairs.mp hmem).2 f hf ⟨t, ht⟩
  · rw [cleanUrl_eq]
    simp [h]

/-- C6 counterexample: with the empty filter list (which matches nothing)
`clean` does not return the canonical reserialization of the input URL —
the parser keeps the raw query `&name=ferret&troop=12&item=vase` (this is
the URL of the doctest of the crate), but reassembly drops the empty
`&`-piece. -/
theorem clean_disjoint_filters_cex :
    parseTable "https://www.example.com/?&name=ferret&troop=12&item=vase"
        ⟨"https", "www.example.com", "/", some "&name=ferret&troop=12&item=vase", none⟩
        "https://www.example.com/?&name=ferret&troop=12&item=vase"
      = Except.ok
          ⟨"https", "www.example.com", "/", some "&name=ferret&troop=12&item=vase", none⟩
    ∧ Url.toString
          ⟨"https", "www.example.com", "/", some "&name=ferret&troop=12&item=vase", none⟩
        = "https://www.example.com/?&name=ferret&troop=12&item=vase"
    ∧ clean (parseTable "https://www.example.com/?&name=ferret&troop=12&item=vase"
          ⟨"https", "www.example.com", "/", some "&name=ferret&troop=12&item=vase", none⟩)
        "https://www.example.com/?&name=ferret&troop=12&item=vase" []
      = Except.ok "https://www.example.com/?name=ferret&troop=12&item=vase"
    ∧ clean (parseTable "https://www.example.com/?&name=ferret&troop=12&item=vase"
          ⟨"https", "www.example.com", "/", some "&name=ferret&troop=12&item=vase", none⟩)
        "https://www.example.com/?&name=ferret&troop=12&item=vase" []
      ≠ Except.ok (Url.toString
          ⟨"https", "www.example.com", "/", some "&name=ferret&troop=12&item=vase", none⟩) := by
  refine ⟨rfl, rfl, rfl, ?_⟩
  intro hcontra
  have h1 : clean (parseTable "https://www.example.com/?&name=ferret&troop=12&item=vase"
        ⟨"https", "www.example.com", "/", some "&name=ferret&troop=12&item=vase", none⟩)
      "https://www.example.com/?&name=ferret&troop=12&item=vase" []
      = Except.ok "https://www.example.com/?name=ferret&troop=12&item=vase" := rfl
  rw [h1] at hcontra
  exact absurd (Except.ok.inj hcontra) (by decide)

/-- C6 (amended): filtering with a filter set that matches none of the
names behaves exactly like filtering with the empty filter set, and it
returns the canonical reserialization of the input provided the raw query
of the parsed URL is unchanged by the query-pairs round trip (no empty
`&`-pieces dropped, no decoding or re-encoding changes) — the unamended
claim fails on inputs such as a query starting with `&`. -/
theorem clean_disjoint_filters_canonical (parse : String → Except ParseError Url)
    (url : String) (fs : List String) (u : Url)
    (hp : parse url = Except.ok u)
    (hnomatch : ∀ p ∈ u.queryPairs, ∀ f ∈ fs, strStartsWith p.1 f = false) :
    cleanUrl u fs = cleanUrl u []
    ∧ ((cleanUrl u []).query = u.query →
        clean parse url fs = Except.ok (Url.toString u)) := by
  have hret : retainedPairs u fs = u.queryPairs := by
    unfold retainedPairs
    rw [List.filter_eq_self]
    intro p hp2
    rw [Bool.not_eq_true', List.any_eq_false]
    intro f hf
    simp [hnomatch p hp2 f hf]
  have hret0 : retainedPairs u [] = u.queryPairs := by
    unfold retainedPairs
    simp
  have h1 : cleanUrl u fs = cleanUrl u [] := by
    rw [cleanUrl_eq, cleanUrl_eq, hret, hret0]
  refine ⟨h1, fun hq => ?_⟩
  have h2 : cleanUrl u [] = u := by
    rw [cleanUrl_eq] at hq ⊢
    obtain ⟨s, ho, pa, qu, fr⟩ := u
    simp only at hq
    simp [hq]
  rw [clean_ok_of_parse_ok parse url fs u hp, h1, h2]

/-- Witness for C6 (amended) on a concrete URL whose query is already in
round-trip normal form. -/
theorem clean_disjoint_filters_canonical_witness :
    clean (parseTable "https://e.com/?a=1" ⟨"https", "e.com", "/", some "a=1", none⟩)
        "https://e.com/?a=1" ["utm_"]
      = Except.ok "https://e.com/?a=1" := by
  have h := clean_disjoint_filters_canonical
    (parseTable "https://e.com/?a=1" ⟨"https", "e.com", "/", some "a=1", none⟩)
    "https://e.com/?a=1" ["utm_"] ⟨"https", "e.com", "/", some "a=1", none⟩
    rfl (by decide)
  exact (h.2 (by decide)).trans rfl

/-- C4 counterexample: the claim says no literal `?` appears in the output
when every parameter is filtered out, but a `?` inside the fragment
survives filtering — the parser accepts fragments containing `?` — so the
output string can still contain a literal `?`. -/
theorem clean_empty_query_collapse_cex :
    cleanUrl ⟨"https", "example.com", "/", some "utm_a=1", some "x?y"⟩ ["utm_"]
      = ⟨"https", "example.com", "/", none, some "x?y"⟩
    ∧ Url.toString (cleanUrl ⟨"https", "example.com", "/", some "utm_a=1", some "x?y"⟩ ["utm_"])
      = "https://example.com/#x?y"
    ∧ '?' ∈ (Url.toString
        (cleanUrl ⟨"https", "example.com", "/", some "utm_a=1", some "x?y"⟩ ["utm_"])).data :=
  ⟨by decide, by decide, by decide⟩

/-- C4 (amended): if every query parameter is filtered out (or the URL had
none), the output URL has no query component at all — the serializer
emits no `?` separator, so no `?` appears beyond any `?` already inside
another component (for parsed URLs, only the fragment can hold one) —
rather than an empty query string; if at least one parameter is retained,
the query component is the joined string of the retained pairs. -/
theorem clean_empty_query_collapse (u : Url) (fs : List String) :
    (retainedPairs u fs = [] →
      (cleanUrl u fs).query = none
      ∧ Url.toString (cleanUrl u fs)
          = u.scheme ++ "://" ++ u.host ++ u.path
            ++ (match u.fragment with | none => "" | some f => "#" ++ f)
      ∧ (('?' ∉ u.scheme.data ∧ '?' ∉ u.host.data ∧ '?' ∉ u.path.data
            ∧ ∀ f, u.fragment = some f → '?' ∉ f.data) →
          '?' ∉ (Url.toString (cleanUrl u fs)).data))
    ∧ (retainedPairs u fs ≠ [] →
        (cleanUrl u fs).query
          = some (encodeQuery
              (joinAmp ((retainedPairs u fs).map (fun p => p.1 ++ "=" ++ p.2))))) := by
  constructor
  · intro h
    have hc : cleanUrl u fs = { u with query := none } := by
      rw [cleanUrl_eq, h]
      simp
    have hq : (cleanUrl u fs).query = none := by rw [hc]
    have hs : Url.toString (cleanUrl u fs)
        = u.scheme ++ "://" ++ u.host ++ u.path
          ++ (match u.fragment with | none => "" | some f => "#" ++ f) := by
      rw [toString_query_none (cleanUrl u fs) hq, hc]
    refine ⟨hq, hs, ?_⟩
    rintro ⟨h1, h2, h3, h4⟩
    rw [hs]
    simp only [String.data_append, List.mem_append, not_or]
    refine ⟨⟨⟨⟨h1, by decide⟩, h2⟩, h3⟩, ?_⟩
    cases hf : u.fragment with
    | none => simp
    | some f =>
      simp only [String.data_append, List.mem_append, not_or]
      exact ⟨by decide, h4 f hf⟩
  · intro h
    rw [cleanUrl_eq]
    simp [h]

/-- Witness for C4 (amended): a concrete URL whose single parameter is
filtered out loses its whole query component and serializes without any
`?`. -/
theorem clean_empty_query_collapse_witness :
    (cleanUrl ⟨"https", "e.com", "/", some "utm_a=1", none⟩ ["utm_"]).query = none
    ∧ '?' ∉ (Url.toString (cleanUrl ⟨"https", "e.com", "/", some "utm_a=1", none⟩ ["utm_"])).data := by
  have h := (clean_empty_query_collapse
    ⟨"https", "e.com", "/", some "utm_a=1", none⟩ ["utm_"]).1 (by decide)
  refine ⟨h.1, h.2.2 ⟨by decide, by decide, by decide, ?_⟩⟩
  intro f hf
  exact Option.noConfusion hf

/-- C10: filter prefixes are matched against the percent-decoded parameter
name, not the raw encoded form — every query pair of a parsed URL arises
as the decode of a raw nonempty `&`-piece, and such a pair is dropped
exactly when its decoded name starts with some filter string. -/
theorem clean_matches_decoded_names (u : Url) (q : String) (fs : List String)
    (p : String × String) (hq : u.query = some q) (hp : p ∈ u.queryPairs) :
    (∃ piece ∈ splitAmp q.data, piece ≠ [] ∧ p = decodePiece piece)
    ∧ ((∃ f ∈ fs, ∃ t, p.1 = f ++ t) ↔ p ∉ retainedPairs u fs) := by
  constructor
  · have hqp : u.queryPairs = parseQueryPairs q := by
      unfold Url.queryPairs
      rw [hq]
    rw [hqp] at hp
    unfold parseQueryPairs at hp
    obtain ⟨piece, hpiece, hdec⟩ := List.mem_map.mp hp
    have h2 := List.mem_filter.mp hpiece
    refine ⟨piece, h2.1, ?_, hdec.symm⟩
    have := h2.2
    simp at this
    exact this
  · constructor
    · rintro ⟨f, hf, t, ht⟩ hmem
      exact (mem_retainedPairs.mp hmem).2 f hf ⟨t, ht⟩
    · intro hnot
      by_contra hne
      push_neg at hne
      refine hnot (mem_retainedPairs.mpr ⟨hp, fun f hf hex => ?_⟩)
      obtain ⟨t, ht⟩ := hex
      exact hne f hf t ht

/-- Witness for C10: the raw name `%75tm_x` does not itself start with
`utm_`, but its percent-decoded form `utm_x` does, and the pair is
removed. -/
theorem clean_matches_decoded_names_witness :
    ("utm_x", "1") ∉ retainedPairs ⟨"https", "e.com", "/", some "%75tm_x=1&a=2", none⟩ ["utm_"]
    ∧ strStartsWith "%75tm_x" "utm_" = false
    ∧ Url.queryPairs ⟨"https", "e.com", "/", some "%75tm_x=1&a=2", none⟩
      = [("utm_x", "1"), ("a", "2")] := by
  refine ⟨?_, by decide, by decide⟩
  exact (clean_matches_decoded_names
    ⟨"https", "e.com", "/", some "%75tm_x=1&a=2", none⟩ "%75tm_x=1&a=2" ["utm_"]
    ("utm_x", "1") rfl (by decide)).2.mp ⟨"utm_", by decide, "x", by decide⟩

/-- Witness for C1: the pair named `a` is retained under filter `ab`
because `a` does not start with `ab`. -/
theorem clean_retains_iff_no_filter_matches_witness :
    ("a", "") ∈ retainedPairs ⟨"https", "e.com", "/", some "a&ab=1&abc=2", none⟩ ["ab"] := by
  refine ((clean_retains_iff_no_filter_matches
    ⟨"https", "e.com", "/", some "a&ab=1&abc=2", none⟩ ["ab"] ("a", "")).1).mpr
    ⟨by decide, ?_⟩
  intro f hf hex
  obtain ⟨t, ht⟩ := hex
  simp only [List.mem_singleton] at hf
  subst hf
  have hd := congrArg String.data ht
  rw [String.data_append] at hd
  simp at hd

/-- Witness for C3 at a concrete parse function, URL and the default
(all-false) policy. -/
theorem untrack_eq_clean_spec_filters_witness :
    untrack (parseTable "https://e.com/?utm_a=1" ⟨"https", "e.com", "/", some "utm_a=1", none⟩)
        "https://e.com/?utm_a=1" AllowedTracking.default
      = clean (parseTable "https://e.com/?utm_a=1" ⟨"https", "e.com", "/", some "utm_a=1", none⟩)
        "https://e.com/?utm_a=1" (specToFilterSet AllowedTracking.default) :=
  (untrack_eq_clean_spec_filters
    (parseTable "https://e.com/?utm_a=1" ⟨"https", "e.com", "/", some "utm_a=1", none⟩)
    "https://e.com/?utm_a=1" AllowedTracking.default).2.1

/-- Witness for C5 on a query with a duplicated parameter: the repeated
pair keeps its multiplicity while the filtered name drops to zero. -/
theorem clean_preserves_order_values_duplicates_witness :
    (retainedPairs ⟨"https", "e.com", "/", some "a=1&utm_b=2&a=1", none⟩ ["utm_"]).count ("a", "1")
      = (Url.queryPairs ⟨"https", "e.com", "/", some "a=1&utm_b=2&a=1", none⟩).count ("a", "1")
    ∧ (retainedPairs ⟨"https", "e.com", "/", some "a=1&utm_b=2&a=1", none⟩ ["utm_"]).count ("utm_b", "2")
      = 0 := by
  constructor
  · refine ((clean_preserves_order_values_duplicates
      ⟨"https", "e.com", "/", some "a=1&utm_b=2&a=1", none⟩ ["utm_"]).2.1 ("a", "1")).1 ?_
    intro f hf hex
    obtain ⟨t, ht⟩ := hex
    simp only [List.mem_singleton] at hf
    subst hf
    have hd := congrArg String.data ht
    rw [String.data_append] at hd
    simp at hd
  · exact ((clean_preserves_order_values_duplicates
      ⟨"https", "e.com", "/", some "a=1&utm_b=2&a=1", none⟩ ["utm_"]).2.1 ("utm_b", "2")).2
      ⟨"utm_", by decide, "b", by decide⟩
